import Mathlib

/-!
Verification development for the project-management persistence layer
(src/jazzband/projects/models.py): a shallow embedding in Lean 4 of the
data model (Project, ProjectCredential, ProjectMembership, ProjectUpload),
the derived path properties built on flask.safe_join / posixpath.normpath,
the uploads_count aggregate maintenance, and the after-delete file cleanup
hook, together with theorems settling the specified properties.
-/

namespace Jazzband

/-! ### String primitives

The Python code works on strings via str.startswith, str.endswith,
str.split("/") and "/".join.  We embed these operations directly on the
underlying character lists so that every definition is executable and
easy to reason about. -/

/-- Embeds list-level "is a leading segment of": the core of Python
str.startswith. -/
def listIsPfx : List Char → List Char → Bool
  | [], _ => true
  | _ :: _, [] => false
  | a :: as, b :: bs => a == b && listIsPfx as bs

/-- Embeds Python str.startswith for a plain string argument. -/
def strStartsWith (s pre : String) : Bool :=
  listIsPfx pre.data s.data

/-- Embeds Python str.endswith for a plain string argument. -/
def strEndsWith (s suf : String) : Bool :=
  listIsPfx suf.data.reverse s.data.reverse

/-- Embeds Python str.split for separator "/" on the character list:
splits at every slash, keeping empty pieces, so the result is never
empty. -/
def splitSlash : List Char → List (List Char)
  | [] => [[]]
  | c :: cs =>
    match splitSlash cs with
    | r :: rs => if c = '/' then [] :: r :: rs else (c :: r) :: rs
    | [] => [[]]

/-- Embeds Python p.split("/") on strings. -/
def splitPath (p : String) : List String :=
  (splitSlash p.data).map (fun l => String.mk l)

/-- Embeds Python "/".join(comps). -/
def joinComps : List String → String
  | [] => ""
  | [c] => c
  | c :: c2 :: cs => c ++ "/" ++ joinComps (c2 :: cs)

/-- Embeds os.path.isabs on POSIX: the path begins with a slash. -/
def isAbs (s : String) : Bool := strStartsWith s "/"

/-- The string of initial slashes kept by posixpath.normpath
(zero, one, or exactly two). -/
def leadingSlashes : Nat → String
  | 0 => ""
  | 1 => "/"
  | _ => "//"

/-! ### posixpath.normpath

Embeds the CPython posixpath.normpath component loop: skip empty and "."
components; append a component unless it is ".." that can cancel a
previous real component; a ".." at the bottom of a relative path is kept,
and at the bottom of an absolute path is dropped. -/

/-- The normpath accumulator loop over the split components.  The flag
records whether the original path was absolute (had initial slashes). -/
def npAux (hasSlash : Bool) : List String → List String → List String
  | acc, [] => acc
  | acc, c :: cs =>
    if c == "" || c == "." then npAux hasSlash acc cs
    else if c != ".." || (!hasSlash && acc.isEmpty) || acc.getLast? == some ".." then
      npAux hasSlash (acc ++ [c]) cs
    else if !acc.isEmpty then npAux hasSlash acc.dropLast cs
    else npAux hasSlash acc cs

/-- Embeds posixpath.normpath. -/
def normpath (p : String) : String :=
  if p == "" then "." else
  let initSlashes : Nat :=
    if strStartsWith p "/" then
      if strStartsWith p "//" && !strStartsWith p "///" then 2 else 1
    else 0
  let newComps := npAux (initSlashes != 0) [] (splitPath p)
  let res := leadingSlashes initSlashes ++ joinComps newComps
  if res == "" then "." else res

/-! ### flask.safe_join

Embeds flask.safe_join for a single path component, as called by
ProjectUpload.full_path.  A none result models the NotFound exception
flask raises; on POSIX the alternative-separator check is vacuous.
posixJoin embeds posixpath.join for two arguments. -/

/-- Embeds posixpath.join for two arguments. -/
def posixJoin (a b : String) : String :=
  if isAbs b then b
  else if a == "" || strEndsWith a "/" then a ++ b
  else a ++ "/" ++ b

/-- Embeds flask.safe_join(directory, filename): normalize the filename,
refuse absolute filenames and filenames that begin with "..", and
otherwise join.  none models the raised NotFound error. -/
def safe_join (directory filename : String) : Option String :=
  let f := if filename != "" then normpath filename else filename
  if isAbs f || f == ".." || strStartsWith f "../" then none
  else some (posixJoin directory f)

/-! ### Escaping the root

A formalisation of "the stored relative path would resolve outside the
root": the path is absolute (so it ignores the root entirely), or
resolving its components with a stack (pushing names, popping on "..")
underflows at some point, i.e. refers to an ancestor of the root. -/

/-- Resolve relative path components against a stack of directory names;
none means a ".." stepped above the starting directory. -/
def resolveRel : List String → List String → Option (List String)
  | s, [] => some s
  | s, c :: cs =>
    if c == "" || c == "." then resolveRel s cs
    else if c == ".." then
      if s.isEmpty then none else resolveRel s.dropLast cs
    else resolveRel (s ++ [c]) cs

/-- The relative path p, resolved against a root directory, would
escape that root. -/
def escapesRoot (p : String) : Bool :=
  isAbs p || (resolveRel [] (splitPath p)).isNone

/-! ### Data model

Rows of the four tables, embedded as structures whose fields mirror the
declared columns.  Timestamps are abstract Nat instants; nullable columns
are Option; UUID values are drawn from an abstract Nat domain.  Foreign
key columns are carried as plain ids (rows with NULL references are not
exercised by any claim). -/

/-- Modelled from the spec: the User collaborator (defined outside this
fragment); only its id is consumed here, via membership foreign keys. -/
structure User where
  id : Nat
  deriving DecidableEq

/-- A row of the projects table.  The column normalized_name is not a
field: it is a query-time computed property, see normalizedName. -/
structure Project where
  id : Nat
  name : String
  description : Option String := none
  html_url : Option String := none
  subscribers_count : Nat := 0
  stargazers_count : Nat := 0
  forks_count : Nat := 0
  open_issues_count : Nat := 0
  is_active : Bool := true
  transfer_issue_url : Option String := none
  created_at : Option Nat := none
  updated_at : Option Nat := none
  pushed_at : Option Nat := none
  uploads_count : Nat := 0
  deriving DecidableEq

/-- A row of the project_credentials table. -/
structure ProjectCredential where
  id : Nat
  project_id : Nat
  is_active : Bool := true
  key : Nat
  deriving DecidableEq

/-- A row of the project_memberships table. -/
structure ProjectMembership where
  id : Nat
  user_id : Nat
  project_id : Nat
  joined_at : Nat := 0
  is_lead : Bool := false
  deriving DecidableEq

/-- A row of the project_uploads table. -/
structure ProjectUpload where
  id : Nat
  project_id : Nat
  version : Option String := none
  path : String
  filename : String
  size : Nat := 0
  md5_digest : String := ""
  sha256_digest : String := ""
  blake2_256_digest : String := ""
  uploaded_at : Nat := 0
  released_at : Option Nat := none
  notified_at : Option Nat := none
  form_data : Option String := none
  user_agent : Option String := none
  remote_addr : Option String := none
  ordering : Int := 0
  deriving DecidableEq

/-- The database state: one list of rows per table. -/
structure DB where
  users : List User := []
  projects : List Project := []
  credentials : List ProjectCredential := []
  memberships : List ProjectMembership := []
  uploads : List ProjectUpload := []

/-- The deployment configuration consumed by full_path. -/
structure AppConfig where
  UPLOAD_ROOT : String

/-- Resolve a user foreign key against the users table (primary key
lookup, as the member.user relationship does). -/
def getUser (users : List User) (uid : Nat) : Option User :=
  users.find? (fun u => u.id == uid)

/-- The schema constraint on project_credentials rows: the only
uniqueness the table declares is the primary key; the (key, is_active)
index is a plain, non-unique index. -/
def credentialSchemaOk (rows : List ProjectCredential) : Prop :=
  (rows.map (fun r => r.id)).Nodup

/-- No two credential rows share the same key value. -/
def credentialKeysDistinct (rows : List ProjectCredential) : Prop :=
  (rows.map (fun r => r.key)).Nodup

/-- The schema constraint on project_memberships rows: only the primary
key is unique; no constraint mentions (user_id, project_id). -/
def membershipSchemaOk (rows : List ProjectMembership) : Prop :=
  (rows.map (fun r => r.id)).Nodup

/-! ### Project properties -/

/-- Modelled from the spec: the name-normalization function
(the repo defines normalize_pep426_name as a database function outside
this fragment): lower-case the name and squash every run of the
characters "-", "_", "." into a single "-".  The flag records whether
the previous character belonged to such a run. -/
def pep426Aux : List Char → Bool → List Char
  | [], _ => []
  | c :: cs, prevSep =>
    if c = '-' ∨ c = '_' ∨ c = '.' then
      if prevSep then pep426Aux cs true else '-' :: pep426Aux cs true
    else c.toLower :: pep426Aux cs false

/-- Modelled from the spec: normalize_pep426_name as a pure string
transform. -/
def normalize_pep426_name (s : String) : String :=
  String.mk (pep426Aux s.data false)

/-- Embeds the normalized_name column property: the normalization
function applied to the name column, computed at query time. -/
def normalizedName (p : Project) : String :=
  normalize_pep426_name p.name

/-- Embeds Project.member_ids: all membership rows of the project, each
projected to its user row and then to that user's id. -/
def member_ids (db : DB) (p : Project) : List Nat :=
  ((db.memberships.filter (fun m => m.project_id == p.id)).filterMap
    (fun m => (getUser db.users m.user_id).map (fun u => u.id)))

/-- The current actor, embedding the ambient current_user proxy together
with the ambient roadie capability check: none models an absent actor. -/
structure Actor where
  is_authenticated : Bool
  is_roadie : Bool
  id : Nat
  deriving DecidableEq

/-- Embeds Project.current_user_is_member: false for an absent or
unauthenticated actor, true for a roadie, otherwise membership of the
actor id in member_ids. -/
def current_user_is_member (db : DB) (cu : Option Actor) (p : Project) : Bool :=
  match cu with
  | none => false
  | some a =>
    if !a.is_authenticated then false
    else if a.is_roadie then true
    else (member_ids db p).contains a.id

/-- Embeds Project.leads: membership rows of the project filtered to
is_lead = true and user_id among the caller-supplied active member
ids, projected to the user rows. -/
def leads (db : DB) (activeIds : List Nat) (p : Project) : List User :=
  ((db.memberships.filter
      (fun m => m.project_id == p.id && m.is_lead && activeIds.contains m.user_id)).filterMap
    (fun m => getUser db.users m.user_id))

/-! ### Upload path properties -/

/-- Embeds ProjectUpload.full_path: safe_join of the configured upload
root with the stored relative path; none models the raised error. -/
def full_path (cfg : AppConfig) (u : ProjectUpload) : Option String :=
  safe_join cfg.UPLOAD_ROOT u.path

/-- Embeds ProjectUpload.signature_path: full_path with ".asc" appended;
a raise inside full_path propagates. -/
def signature_path (cfg : AppConfig) (u : ProjectUpload) : Option String :=
  (full_path cfg u).map (fun s => s ++ ".asc")

/-! ### uploads_count aggregate maintenance

The aggregated declaration on Project.uploads_count makes the storage
layer recompute the column as the count of uploads of the project after
every committed insert or delete of an upload row.  The two operations
below embed a committed insert and a committed delete together with that
recomputation. -/

/-- The uploads belonging to a project id. -/
def uploadsOf (ups : List ProjectUpload) (pid : Nat) : List ProjectUpload :=
  ups.filter (fun u => u.project_id == pid)

/-- Recompute the aggregate column of every project with the given id
from the uploads table, as the aggregated declaration (count over the
uploads relationship) prescribes. -/
def applyAggregate (projs : List Project) (ups : List ProjectUpload) (pid : Nat) :
    List Project :=
  projs.map (fun p =>
    if p.id == pid then { p with uploads_count := (uploadsOf ups pid).length } else p)

/-- A committed insert of an upload row, with aggregate maintenance for
the referenced project. -/
def insertUpload (db : DB) (u : ProjectUpload) : DB :=
  let ups := db.uploads ++ [u]
  { db with projects := applyAggregate db.projects ups u.project_id, uploads := ups }

/-- A committed delete of an upload row, with aggregate maintenance for
the referenced project. -/
def deleteUpload (db : DB) (u : ProjectUpload) : DB :=
  let ups := db.uploads.erase u
  { db with projects := applyAggregate db.projects ups u.project_id, uploads := ups }

/-- The aggregate-maintenance invariant: every project row carries the
live count of upload rows bearing its id. -/
def aggregateInv (db : DB) : Prop :=
  ∀ p ∈ db.projects, p.uploads_count = (uploadsOf db.uploads p.id).length

/-! ### The deletion hook

delete_upload_file runs against the filesystem, embedded as the finite
set of paths of existing files.  os.remove removes an existing file and
raises otherwise; os.path.exists tests membership. -/

/-- Embeds os.remove: none models the raised OSError when the file does
not exist. -/
def osRemove (fs : Finset String) (p : String) : Option (Finset String) :=
  if p ∈ fs then some (fs.erase p) else none

/-- The errors the hook can propagate: the NotFound raised by safe_join
inside full_path, or the OSError raised by os.remove. -/
inductive HookError where
  | httpNotFound
  | fileNotFound
  deriving DecidableEq

/-- The filesystem after the hook ran, together with the propagated
error, if any.  Errors leave the filesystem exactly as the failing call
found it. -/
structure HookOutcome where
  fs : Finset String
  err : Option HookError
  deriving DecidableEq

/-- Embeds delete_upload_file, the after_delete listener on
ProjectUpload: remove the file at full_path unconditionally, then remove
the file at signature_path (full_path + ".asc") only if it exists. -/
def delete_upload_file (cfg : AppConfig) (fs : Finset String) (target : ProjectUpload) :
    HookOutcome :=
  match full_path cfg target with
  | none => ⟨fs, some HookError.httpNotFound⟩
  | some fp =>
    match osRemove fs fp with
    | none => ⟨fs, some HookError.fileNotFound⟩
    | some fs1 =>
      let sp := fp ++ ".asc"
      if sp ∈ fs1 then
        match osRemove fs1 sp with
        | none => ⟨fs1, some HookError.fileNotFound⟩
        | some fs2 => ⟨fs2, none⟩
      else ⟨fs1, none⟩

/-! ### Concrete instances used to instantiate the theorems -/

/-- A deployment configuration with the documented upload root. -/
def exCfg : AppConfig := ⟨"/app/uploads"⟩

/-- An upload row with a well-formed relative storage path. -/
def exUpload : ProjectUpload :=
  { id := 1, project_id := 3, path := "acme/pkg1", filename := "pkg1" }

/-- An upload row whose stored relative path climbs out of the root. -/
def exUploadEvil : ProjectUpload :=
  { id := 2, project_id := 3, path := "acme/../../etc/passwd", filename := "evil" }

/-- A filesystem holding the primary artifact and its signature. -/
def exFsBoth : Finset String :=
  {"/app/uploads/acme/pkg1", "/app/uploads/acme/pkg1.asc"}

/-- A filesystem holding only the primary artifact. -/
def exFsPrimaryOnly : Finset String := {"/app/uploads/acme/pkg1"}

/-- A filesystem holding only the signature file. -/
def exFsSigOnly : Finset String := {"/app/uploads/acme/pkg1.asc"}

/-- A project row. -/
def exProject : Project := { id := 3, name := "Acme" }

/-- A database with one project and no uploads. -/
def exDB2 : DB := { projects := [exProject] }

/-- A database with one project, one user, one membership row. -/
def exDB4 : DB :=
  { users := [⟨7⟩], projects := [exProject],
    memberships := [{ id := 1, user_id := 7, project_id := 3 }] }

/-- Two credential rows with distinct primary keys sharing one key
value. -/
def exCreds : List ProjectCredential :=
  [{ id := 1, project_id := 3, key := 42 }, { id := 2, project_id := 3, key := 42 }]

/-- A project used to exhibit duplicate memberships. -/
def exProj10 : Project := { id := 4, name := "dup" }

/-- A database where one user has two membership rows for the same
project. -/
def exDB10 : DB :=
  { users := [⟨7⟩], projects := [exProj10],
    memberships := [{ id := 1, user_id := 7, project_id := 4 },
                    { id := 2, user_id := 7, project_id := 4 }] }

/-- A project row with a name that exercises normalization. -/
def exProj8a : Project := { id := 1, name := "My_Project..Alpha" }

/-- Another project row with the same name and different other fields. -/
def exProj8b : Project :=
  { id := 2, name := "My_Project..Alpha", description := some "other" }

end Jazzband
namespace Jazzband

/-- Correspondence between the normpath accumulator loop on a relative
path and stack resolution: underflow of the stack shows up as extra
leading ".." components in the accumulator. -/
theorem npAux_resolve (cs : List String) : ∀ (k : Nat) (s : List String), ".." ∉ s →
    ∃ k' s', k ≤ k' ∧ ".." ∉ s' ∧
      npAux false (List.replicate k ".." ++ s) cs = List.replicate k' ".." ++ s' ∧
      (∀ t, resolveRel s cs = some t → k' = k ∧ s' = t) ∧
      (resolveRel s cs = none → k < k') := by
  induction cs with
  | nil =>
    intro k s hs
    refine ⟨k, s, le_refl k, hs, rfl, ?_, ?_⟩
    · intro t ht
      simp [resolveRel] at ht
      exact ⟨rfl, ht⟩
    · intro h
      simp [resolveRel] at h
  | cons c cs ih =>
    intro k s hs
    by_cases h1 : (c == "" || c == ".") = true
    · have e1 : npAux false (List.replicate k ".." ++ s) (c :: cs) =
          npAux false (List.replicate k ".." ++ s) cs := by
        simp only [npAux, h1, if_true]
      have e2 : resolveRel s (c :: cs) = resolveRel s cs := by
        simp only [resolveRel, h1, if_true]
      rw [e1, e2]
      exact ih k s hs
    · rw [Bool.not_eq_true] at h1
      by_cases h2 : (c == "..") = true
      · have hc : c = ".." := by simpa using h2
        subst hc
        cases s with
        | nil =>
          have e2 : resolveRel ([] : List String) (".." :: cs) = none := by
            simp [resolveRel]
          have e1 : npAux false (List.replicate k ".." ++ []) (".." :: cs) =
              npAux false (List.replicate (k + 1) ".." ++ []) cs := by
            cases k with
            | zero => simp [npAux]
            | succ kk =>
              simp only [List.append_nil]
              rw [npAux]
              simp [List.getLast?_replicate, List.replicate_succ']
          obtain ⟨k', s', hk, hs2, heq, hsome, hnone⟩ := ih (k + 1) [] (by simp)
          refine ⟨k', s', by omega, hs2, by rw [e1]; exact heq, ?_, ?_⟩
          · intro t ht
            rw [e2] at ht
            exact absurd ht (by simp)
          · intro _
            omega
        | cons a as =>
          have hne : (a :: as) ≠ [] := by simp
          have e2 : resolveRel (a :: as) (".." :: cs) =
              resolveRel (a :: as).dropLast cs := by
            simp [resolveRel]
          have hx : (a :: as).getLast? = some ((a :: as).getLast hne) :=
            List.getLast?_eq_getLast _ hne
          have hxmem : (a :: as).getLast hne ∈ a :: as := List.getLast_mem hne
          have hxne : ((a :: as).getLast hne == "..") = false := by
            simp only [beq_eq_false_iff_ne, ne_eq]
            intro hq
            exact hs (hq ▸ hxmem)
          have e1 : npAux false (List.replicate k ".." ++ (a :: as)) (".." :: cs) =
              npAux false (List.replicate k ".." ++ (a :: as).dropLast) cs := by
            rw [npAux]
            rw [List.getLast?_append_of_ne_nil _ hne, hx]
            simp [hxne, List.dropLast_append_of_ne_nil _ hne]
          have hs' : ".." ∉ (a :: as).dropLast := by
            intro hm
            exact hs ((List.dropLast_sublist (a :: as)).subset hm)
          obtain ⟨k', s', hk, hs2, heq, hsome, hnone⟩ := ih k (a :: as).dropLast hs'
          refine ⟨k', s', hk, hs2, by rw [e1]; exact heq, ?_, ?_⟩
          · intro t ht
            rw [e2] at ht
            exact hsome t ht
          · intro h
            rw [e2] at h
            exact hnone h
      · rw [Bool.not_eq_true] at h2
        have hcne : c ≠ ".." := by simpa using h2
        have e2 : resolveRel s (c :: cs) = resolveRel (s ++ [c]) cs := by
          simp only [resolveRel, h1, h2]
          simp
        have hcond : (c != ".." || (!false && (List.replicate k ".." ++ s).isEmpty)
            || (List.replicate k ".." ++ s).getLast? == some "..") = true := by
          simp [bne, h2]
        have e1 : npAux false (List.replicate k ".." ++ s) (c :: cs) =
            npAux false (List.replicate k ".." ++ (s ++ [c])) cs := by
          rw [npAux]
          rw [if_neg (by simp [h1]), if_pos hcond, List.append_assoc]
        have hs' : ".." ∉ s ++ [c] := by
          intro hm
          rcases List.mem_append.mp hm with h | h
          · exact hs h
          · simp at h
            exact hcne h.symm
        obtain ⟨k', s', hk, hs2, heq, hsome, hnone⟩ := ih k (s ++ [c]) hs'
        refine ⟨k', s', hk, hs2, by rw [e1]; exact heq, ?_, ?_⟩
        · intro t ht
          rw [e2] at ht
          exact hsome t ht
        · intro h
          rw [e2] at h
          exact hnone h

end Jazzband

namespace Jazzband

/-- A list is a leading segment of itself followed by anything. -/
theorem listIsPfx_append (pre t : List Char) : listIsPfx pre (pre ++ t) = true := by
  induction pre with
  | nil => rfl
  | cons a as ih => simp [listIsPfx, ih]

/-- startsWith holds whenever the data decomposes accordingly. -/
theorem strStartsWith_of_data (s pre : String) (t : List Char)
    (h : s.data = pre.data ++ t) : strStartsWith s pre = true := by
  unfold strStartsWith
  rw [h]
  exact listIsPfx_append _ _

/-- On a nonempty relative path, normpath reduces to joining the
accumulator-loop output (with the dot fallback for an empty result). -/
theorem normpath_rel (p : String) (hp : (p == "") = false)
    (hA : strStartsWith p "/" = false) :
    normpath p =
      if joinComps (npAux false [] (splitPath p)) == "" then "."
      else joinComps (npAux false [] (splitPath p)) := by
  unfold normpath
  rw [if_neg (by simp [hp] : ¬((p == "") = true))]
  simp only [hA, Bool.false_eq_true, if_false]
  rfl

/-- On an absolute path, normpath returns an absolute path. -/
theorem normpath_abs (p : String) (hp : (p == "") = false)
    (hA : strStartsWith p "/" = true) :
    isAbs (normpath p) = true := by
  unfold normpath
  rw [if_neg (by simp [hp] : ¬((p == "") = true))]
  simp only [hA, if_true]
  by_cases h2 : (strStartsWith p "//" && !strStartsWith p "///") = true
  · simp only [h2, if_true]
    rw [(by rfl : ((2 : Nat) != 0) = true)]
    have hd : (leadingSlashes 2 ++
        joinComps (npAux true [] (splitPath p))).data =
        '/' :: '/' :: (joinComps (npAux true [] (splitPath p))).data := by
      rw [String.data_append]
      rfl
    have hne : (leadingSlashes 2 ++
        joinComps (npAux true [] (splitPath p)) == "") = false := by
      simp only [beq_eq_false_iff_ne, ne_eq]
      intro h
      rw [String.ext_iff, hd] at h
      simp at h
    rw [if_neg (by simp [hne])]
    exact strStartsWith_of_data _ _ _ (by rw [hd]; rfl)
  · simp only [h2, Bool.false_eq_true, if_false]
    rw [(by rfl : ((1 : Nat) != 0) = true)]
    have hd : (leadingSlashes 1 ++
        joinComps (npAux true [] (splitPath p))).data =
        '/' :: (joinComps (npAux true [] (splitPath p))).data := by
      rw [String.data_append]
      rfl
    have hne : (leadingSlashes 1 ++
        joinComps (npAux true [] (splitPath p)) == "") = false := by
      simp only [beq_eq_false_iff_ne, ne_eq]
      intro h
      rw [String.ext_iff, hd] at h
      simp at h
    rw [if_neg (by simp [hne])]
    exact strStartsWith_of_data _ _ _ (by rw [hd]; rfl)

end Jazzband
namespace Jazzband

/-- A path that would resolve outside the root is refused by safe_join. -/
theorem safe_join_escape (root p : String) (h : escapesRoot p = true) :
    safe_join root p = none := by
  by_cases hA : isAbs p = true
  · have hpne : p ≠ "" := by
      intro hq
      rw [hq] at hA
      exact absurd hA (by decide)
    have hp : (p == "") = false := by simp [hpne]
    have h1 : isAbs (normpath p) = true := normpath_abs p hp hA
    unfold safe_join
    rw [show (p != "") = true from by simp [hpne]]
    simp only [if_true, h1, Bool.true_or, if_true]
  · have hA' : isAbs p = false := by
      revert hA
      cases isAbs p <;> simp
    have hN : resolveRel [] (splitPath p) = none := by
      unfold escapesRoot at h
      rw [hA'] at h
      simp only [Bool.false_or, Option.isNone_iff_eq_none] at h
      exact h
    have hp : p ≠ "" := by
      intro hq
      rw [hq] at hN
      exact absurd hN (by decide)
    have hpb : (p == "") = false := by simp [hp]
    obtain ⟨k', s', hk, hs', heq, hsome, hnone⟩ := npAux_resolve (splitPath p) 0 [] (by simp)
    have hlt : 0 < k' := hnone hN
    simp only [List.replicate, List.append_nil] at heq
    obtain ⟨kk, rfl⟩ : ∃ kk, k' = kk + 1 := ⟨k' - 1, by omega⟩
    rw [List.replicate_succ, List.cons_append] at heq
    unfold safe_join
    rw [show (p != "") = true from by simp [hp]]
    simp only [if_true]
    rw [normpath_rel p hpb hA', heq]
    cases hrest : List.replicate kk ".." ++ s' with
    | nil =>
      have hf : (if joinComps (".." :: ([] : List String)) == "" then "."
          else joinComps (".." :: ([] : List String))) = ".." := by decide
      rw [hf]
      have hcond : (isAbs ".." || ".." == ".." || strStartsWith ".." "../") = true := by
        decide
      rw [hcond]
      simp
    | cons r rs =>
      have hj : joinComps (".." :: r :: rs) = ".." ++ "/" ++ joinComps (r :: rs) := rfl
      have hdata : (joinComps (".." :: r :: rs)).data =
          "../".data ++ (joinComps (r :: rs)).data := by
        rw [hj, String.data_append, String.data_append]
        rfl
      have hneq : (joinComps (".." :: r :: rs) == "") = false := by
        simp only [beq_eq_false_iff_ne, ne_eq]
        intro hq
        rw [String.ext_iff, hdata] at hq
        simp at hq
      have hstart : strStartsWith (joinComps (".." :: r :: rs)) "../" = true :=
        strStartsWith_of_data _ _ _ hdata
      rw [if_neg (show ¬((joinComps (".." :: r :: rs) == "") = true) from by
        simp [hneq])]
      rw [hstart]
      simp

end Jazzband
namespace Jazzband

/-! ### Claim theorems -/

/-- Claim C3: for every Upload Record, full_path is the traversal-safe
join of the configured upload root directory with the stored relative
path, and the construction fails (the raised error, modelled as none)
whenever the stored relative path would resolve outside the root. -/
theorem full_path_traversal_safe (cfg : AppConfig) (u : ProjectUpload) :
    full_path cfg u = safe_join cfg.UPLOAD_ROOT u.path ∧
    (escapesRoot u.path = true → full_path cfg u = none) := by
  constructor
  · rfl
  · intro h
    unfold full_path
    exact safe_join_escape _ _ h

/-- Witness for C3: with root /app/uploads and relative path
acme/../../etc/passwd, the path escapes the root and full_path fails. -/
theorem full_path_traversal_safe_witness :
    escapesRoot "acme/../../etc/passwd" = true ∧
    full_path exCfg exUploadEvil = none := by
  constructor
  · decide
  · exact (full_path_traversal_safe exCfg exUploadEvil).2 (by decide)

/-- Claim C6: signature_path is full_path with ".asc" appended, for
every upload whose full_path is constructed; no filesystem state is
consulted. -/
theorem signature_path_eq (cfg : AppConfig) (u : ProjectUpload) (p : String)
    (h : full_path cfg u = some p) :
    signature_path cfg u = some (p ++ ".asc") := by
  unfold signature_path
  rw [h]
  rfl

/-- Witness for C6 at a concrete upload. -/
theorem signature_path_eq_witness :
    full_path exCfg exUpload = some "/app/uploads/acme/pkg1" ∧
    signature_path exCfg exUpload = some ("/app/uploads/acme/pkg1" ++ ".asc") := by
  constructor
  · decide
  · exact signature_path_eq exCfg exUpload _ (by decide)

/-- Claim C8: normalized_name is a pure function of name: two project
rows with identical name have identical normalized_name. -/
theorem normalized_name_pure (p q : Project) (h : p.name = q.name) :
    normalizedName p = normalizedName q := by
  unfold normalizedName
  rw [h]

/-- Witness for C8: two rows agreeing on name and differing elsewhere. -/
theorem normalized_name_pure_witness :
    normalizedName exProj8a = normalizedName exProj8b :=
  normalized_name_pure exProj8a exProj8b rfl

/-- Counterexample for C7: a credential table satisfying every schema
constraint (only the primary key is unique; the (key, is_active) index
is not a uniqueness constraint) in which two rows share the same key. -/
theorem credential_keys_not_schema_unique :
    credentialSchemaOk exCreds ∧ ¬ credentialKeysDistinct exCreds := by
  constructor
  · unfold credentialSchemaOk
    decide
  · unfold credentialKeysDistinct
    decide

/-- Claim C7 as amended: the schema permits two credential rows with
distinct ids but equal keys; key uniqueness is not schema-enforced. -/
theorem credential_keys_may_collide :
    ∃ rows : List ProjectCredential,
      credentialSchemaOk rows ∧ ¬ credentialKeysDistinct rows :=
  ⟨exCreds, by unfold credentialSchemaOk; decide, by unfold credentialKeysDistinct; decide⟩

/-- Claim C10: the membership schema has no uniqueness constraint on
(user_id, project_id): a table with two rows for the same user and
project satisfies the schema, and member_ids then lists that user id
twice. -/
theorem membership_duplicates_allowed :
    membershipSchemaOk exDB10.memberships ∧
    (member_ids exDB10 exProj10).count 7 = 2 := by
  constructor
  · unfold membershipSchemaOk
    decide
  · decide

end Jazzband
namespace Jazzband

/-- Claim C1: for every deletion of an upload record, the hook
unconditionally attempts removal of the file at full_path, propagating
the OS error when that file is missing; it removes the file at
signature_path only if that file exists, and its absence raises no
error. -/
theorem delete_upload_file_contract (cfg : AppConfig) (fs : Finset String)
    (u : ProjectUpload) (fp : String) (h : full_path cfg u = some fp) :
    (fp ∉ fs → delete_upload_file cfg fs u = ⟨fs, some HookError.fileNotFound⟩) ∧
    (fp ∈ fs → fp ++ ".asc" ∉ fs.erase fp →
      delete_upload_file cfg fs u = ⟨fs.erase fp, none⟩) ∧
    (fp ∈ fs → fp ++ ".asc" ∈ fs.erase fp →
      delete_upload_file cfg fs u = ⟨(fs.erase fp).erase (fp ++ ".asc"), none⟩) := by
  refine ⟨?_, ?_, ?_⟩
  · intro hmem
    simp [delete_upload_file, h, osRemove, hmem]
  · intro hmem hsig
    simp [delete_upload_file, h, osRemove, hmem, hsig]
  · intro hmem hsig
    simp [delete_upload_file, h, osRemove, hmem, hsig]

/-- Witness for C1: the three behaviours at a concrete configuration,
upload and filesystems. -/
theorem delete_upload_file_contract_witness :
    full_path exCfg exUpload = some "/app/uploads/acme/pkg1" ∧
    delete_upload_file exCfg exFsSigOnly exUpload =
      ⟨exFsSigOnly, some HookError.fileNotFound⟩ ∧
    delete_upload_file exCfg exFsPrimaryOnly exUpload =
      ⟨exFsPrimaryOnly.erase "/app/uploads/acme/pkg1", none⟩ ∧
    delete_upload_file exCfg exFsBoth exUpload =
      ⟨(exFsBoth.erase "/app/uploads/acme/pkg1").erase
        ("/app/uploads/acme/pkg1" ++ ".asc"), none⟩ := by
  refine ⟨by decide, ?_, ?_, ?_⟩
  · exact (delete_upload_file_contract exCfg exFsSigOnly exUpload
      "/app/uploads/acme/pkg1" (by decide)).1 (by decide)
  · exact (delete_upload_file_contract exCfg exFsPrimaryOnly exUpload
      "/app/uploads/acme/pkg1" (by decide)).2.1 (by decide) (by decide)
  · exact (delete_upload_file_contract exCfg exFsBoth exUpload
      "/app/uploads/acme/pkg1" (by decide)).2.2 (by decide) (by decide)

/-- Claim C9: when removal of the primary artifact fails, the hook
raises before touching the signature file: the error is reported and
the filesystem, in particular the signature file, is unchanged. -/
theorem delete_upload_file_primary_first (cfg : AppConfig) (fs : Finset String)
    (u : ProjectUpload) (fp : String) (h : full_path cfg u = some fp)
    (hmem : fp ∉ fs) :
    (delete_upload_file cfg fs u).err = some HookError.fileNotFound ∧
    (delete_upload_file cfg fs u).fs = fs ∧
    ((fp ++ ".asc") ∈ (delete_upload_file cfg fs u).fs ↔ (fp ++ ".asc") ∈ fs) := by
  have he : delete_upload_file cfg fs u = ⟨fs, some HookError.fileNotFound⟩ := by
    simp [delete_upload_file, h, osRemove, hmem]
  rw [he]
  exact ⟨rfl, rfl, Iff.rfl⟩

/-- Witness for C9: primary file missing, signature present; the hook
errors and the signature file survives. -/
theorem delete_upload_file_primary_first_witness :
    ("/app/uploads/acme/pkg1" ++ ".asc") ∈ exFsSigOnly ∧
    (delete_upload_file exCfg exFsSigOnly exUpload).err =
      some HookError.fileNotFound ∧
    ("/app/uploads/acme/pkg1" ++ ".asc") ∈
      (delete_upload_file exCfg exFsSigOnly exUpload).fs := by
  have h := delete_upload_file_primary_first exCfg exFsSigOnly exUpload
    "/app/uploads/acme/pkg1" (by decide) (by decide)
  exact ⟨by decide, h.1, h.2.2.mpr (by decide)⟩

end Jazzband
namespace Jazzband

/-- Appending an upload of another project does not change a project's
upload set. -/
theorem uploadsOf_append (olds : List ProjectUpload) (u : ProjectUpload) (q : Nat)
    (h : u.project_id ≠ q) : uploadsOf (olds ++ [u]) q = uploadsOf olds q := by
  unfold uploadsOf
  rw [List.filter_append]
  have hu : List.filter (fun w => w.project_id == q) [u] = [] := by
    have hb : (u.project_id == q) = false := by simpa using h
    simp [List.filter, hb]
  rw [hu, List.append_nil]

/-- Erasing an upload of another project does not change a project's
upload set. -/
theorem uploadsOf_erase (olds : List ProjectUpload) (v : ProjectUpload) (q : Nat)
    (h : v.project_id ≠ q) : uploadsOf (olds.erase v) q = uploadsOf olds q := by
  by_cases hm : v ∈ olds
  · obtain ⟨l1, l2, _, hdec, her⟩ := List.exists_erase_eq hm
    rw [her, hdec]
    unfold uploadsOf
    rw [List.filter_append, List.filter_append, List.filter_cons]
    simp [h]
  · rw [List.erase_of_not_mem hm]

/-- Recomputing the aggregate for the touched project id restores the
invariant, provided other projects' upload sets are untouched. -/
theorem applyAggregate_inv (projs : List Project) (olds ups : List ProjectUpload)
    (pid : Nat)
    (hcount : ∀ q : Nat, q ≠ pid → uploadsOf ups q = uploadsOf olds q)
    (hinv : ∀ p ∈ projs, p.uploads_count = (uploadsOf olds p.id).length) :
    ∀ p ∈ applyAggregate projs ups pid, p.uploads_count = (uploadsOf ups p.id).length := by
  intro p hp
  unfold applyAggregate at hp
  obtain ⟨q, hq, rfl⟩ := List.mem_map.mp hp
  by_cases hid : (q.id == pid) = true
  · have hqid : q.id = pid := by simpa using hid
    simp only [hid, if_true]
    rw [hqid]
  · simp only [hid, Bool.false_eq_true, if_false]
    have hqid : q.id ≠ pid := by simpa using hid
    rw [hcount q.id hqid]
    exact hinv q hq

/-- Claim C2: after a committed insert or a committed delete of an
upload row, every project row's uploads_count equals the live count of
upload rows bearing its id. -/
theorem uploads_count_aggregate (db : DB) (u v : ProjectUpload)
    (h : aggregateInv db) :
    aggregateInv (insertUpload db u) ∧ aggregateInv (deleteUpload db v) := by
  constructor
  · have hproj : (insertUpload db u).projects =
        applyAggregate db.projects (db.uploads ++ [u]) u.project_id := rfl
    have hups : (insertUpload db u).uploads = db.uploads ++ [u] := rfl
    unfold aggregateInv
    rw [hproj, hups]
    exact applyAggregate_inv db.projects db.uploads (db.uploads ++ [u]) u.project_id
      (fun q hq => uploadsOf_append db.uploads u q (fun hh => hq hh.symm)) h
  · have hproj : (deleteUpload db v).projects =
        applyAggregate db.projects (db.uploads.erase v) v.project_id := rfl
    have hups : (deleteUpload db v).uploads = db.uploads.erase v := rfl
    unfold aggregateInv
    rw [hproj, hups]
    exact applyAggregate_inv db.projects db.uploads (db.uploads.erase v) v.project_id
      (fun q hq => uploadsOf_erase db.uploads v q (fun hh => hq hh.symm)) h

/-- Witness for C2: insert into, then delete from, a one-project
database. -/
theorem uploads_count_aggregate_witness :
    aggregateInv exDB2 ∧
    aggregateInv (insertUpload exDB2 exUpload) ∧
    aggregateInv (deleteUpload exDB2 exUpload) := by
  have h0 : aggregateInv exDB2 := by
    unfold aggregateInv uploadsOf
    decide
  have h := uploads_count_aggregate exDB2 exUpload exUpload h0
  exact ⟨h0, h.1, h.2⟩

end Jazzband
namespace Jazzband

/-- Claim C4: current_user_is_member is false for an absent actor and
for an unauthenticated actor; true for an authenticated roadie
regardless of membership; and for an authenticated non-roadie it is true
exactly when the actor id occurs in member_ids. -/
theorem current_user_is_member_cases (db : DB) (p : Project) :
    current_user_is_member db none p = false ∧
    (∀ a : Actor, a.is_authenticated = false →
      current_user_is_member db (some a) p = false) ∧
    (∀ a : Actor, a.is_authenticated = true → a.is_roadie = true →
      current_user_is_member db (some a) p = true) ∧
    (∀ a : Actor, a.is_authenticated = true → a.is_roadie = false →
      (current_user_is_member db (some a) p = true ↔ a.id ∈ member_ids db p)) := by
  refine ⟨rfl, ?_, ?_, ?_⟩
  · intro a ha
    simp [current_user_is_member, ha]
  · intro a ha hr
    simp [current_user_is_member, ha, hr]
  · intro a ha hr
    simp [current_user_is_member, ha, hr]

/-- Witness for C4 at a concrete database: a roadie who is not a member,
a plain member, and an unauthenticated actor. -/
theorem current_user_is_member_cases_witness :
    current_user_is_member exDB4 (some ⟨true, true, 99⟩) exProject = true ∧
    current_user_is_member exDB4 (some ⟨true, false, 7⟩) exProject = true ∧
    current_user_is_member exDB4 (some ⟨false, false, 7⟩) exProject = false := by
  refine ⟨?_, ?_, ?_⟩
  · exact (current_user_is_member_cases exDB4 exProject).2.2.1 ⟨true, true, 99⟩ rfl rfl
  · exact ((current_user_is_member_cases exDB4 exProject).2.2.2
      ⟨true, false, 7⟩ rfl rfl).mpr (by decide)
  · exact (current_user_is_member_cases exDB4 exProject).2.1 ⟨false, false, 7⟩ rfl

/-- Claim C5: leads returns exactly the users (resolved rows, not
membership rows) having some membership row of the project with is_lead
set and a user id in the caller-supplied active-members set; leads
whose user id is not active are excluded. -/
theorem leads_iff (db : DB) (activeIds : List Nat) (p : Project) (u : User) :
    u ∈ leads db activeIds p ↔
      ∃ m, m ∈ db.memberships ∧ m.project_id = p.id ∧ m.is_lead = true ∧
        m.user_id ∈ activeIds ∧ getUser db.users m.user_id = some u := by
  unfold leads
  rw [List.mem_filterMap]
  constructor
  · rintro ⟨m, hm, hg⟩
    rw [List.mem_filter] at hm
    obtain ⟨hmem, hcond⟩ := hm
    simp only [Bool.and_eq_true, beq_iff_eq] at hcond
    exact ⟨m, hmem, hcond.1.1, hcond.1.2, List.elem_iff.mp hcond.2, hg⟩
  · rintro ⟨m, hmem, hpid, hlead, hact, hg⟩
    refine ⟨m, List.mem_filter.mpr ⟨hmem, ?_⟩, hg⟩
    simp only [Bool.and_eq_true, beq_iff_eq]
    exact ⟨⟨hpid, hlead⟩, List.elem_iff.mpr hact⟩

end Jazzband
